import Mathlib

/-
Verification of pkg/operator/starter.go of the
cluster-csi-snapshot-controller-operator repository.

The Go source is shallowly embedded: byte strings are modelled as lists of
characters (all the tokens involved are ASCII, so bytes and characters
coincide on every input of interest), a Go `error` return value is modelled
as `Option GoError` (with `none` standing for the `nil` error), and the
fallible construction steps performed by RunOperator are modelled as an
environment record of `Except` outcomes.
-/

namespace CsiSnapshotOperator

/-- A Go error value; only its message is relevant here. -/
abbrev GoError := String

/-- Byte strings of the Go source, modelled as lists of characters. -/
abbrev Str := List Char

/-! ### Model of strings.NewReplacer(pairs...).Replace

Go's `strings.Replacer` performs a single left-to-right scan of the source
string.  At each position it tries the (old, new) pairs in argument order;
on a match it emits the replacement, skips past the matched old string and
continues scanning the *source* (replacements are never rescanned); on no
match it emits one character and advances by one.  An empty old string is
never chosen here (the guard mirrors that none of the operator's tokens is
empty).  The recursion is made structural with a fuel parameter that starts
at the length of the string; one fuel unit is spent per emitted chunk, and
each step consumes at least one source character, so the fuel never runs
out on the reachable states. -/
def goReplaceAux (pairs : List (Str × Str)) : Nat → Str → Str
  | _, [] => []
  | 0, s => s
  | fuel + 1, c :: rest =>
    match pairs.find? (fun p => !p.1.isEmpty && p.1.isPrefixOf (c :: rest)) with
    | some p => p.2 ++ goReplaceAux pairs fuel (rest.drop (p.1.length - 1))
    | none => c :: goReplaceAux pairs fuel rest

/-- Model of `strings.NewReplacer(pairs...).Replace(s)`. -/
def goReplace (pairs : List (Str × Str)) (s : Str) : Str :=
  goReplaceAux pairs s.length s

/-! ### The placeholder hook of starter.go -/

/-- The literal token `\x24{OPERAND_IMAGE}` from starter.go line 247. -/
def tokOperandImage : Str := "${OPERAND_IMAGE}".toList

/-- The literal token `\x24{LOG_LEVEL}` from starter.go line 250. -/
def tokLogLevel : Str := "${LOG_LEVEL}".toList

/-- Model of `operatorv1.OperatorSpec` (openshift/api): the fields a spec
carries; the hook reads only `logLevel`.  All fields are kept so that
non-interference is a meaningful statement. -/
structure OperatorSpec where
  managementState : String
  logLevel : String
  operatorLogLevel : String
  unsupportedConfigOverrides : String
  observedConfig : String
  deriving DecidableEq

/-- Model of library-go `loglevel.LogLevelToVerbosity`: Normal maps to 2,
Debug to 4, Trace to 6, TraceAll to 8, anything else (including the empty
string) to the default 2. -/
def LogLevelToVerbosity : String → Nat
  | "Normal" => 2
  | "Debug" => 4
  | "Trace" => 6
  | "TraceAll" => 8
  | _ => 2

/-- The replacement pairs the hook hands to strings.NewReplacer:
first the operand-image token with the captured image name, then the
log-level token with the decimal rendering of the verbosity. -/
def hookPairs (imageName : Str) (spec : OperatorSpec) : List (Str × Str) :=
  [(tokOperandImage, imageName),
   (tokLogLevel, (toString (LogLevelToVerbosity spec.logLevel)).toList)]

/-- Model of `replacePlaceholdersHook(imageName)` applied to a spec and a
manifest (starter.go lines 244-254).  Returns the replaced manifest and the
Go error value, which the source always sets to nil. -/
def replacePlaceholdersHook (imageName : Str) (spec : OperatorSpec)
    (manifest : Str) : Str × Option GoError :=
  (goReplace (hookPairs imageName spec) manifest, none)

/-- The manifest produced by the hook (its first component). -/
def substitute (imageName : Str) (spec : OperatorSpec) (manifest : Str) : Str :=
  (replacePlaceholdersHook imageName spec manifest).1

/-- A sample spec used in concrete evaluations. -/
def sampleSpec : OperatorSpec :=
  ⟨"Managed", "Normal", "Normal", "", ""⟩

/-! ### Occurrence of a pattern in a string -/

/-- True when `pat` occurs as a contiguous substring of the string. -/
def containsSub (pat : Str) : Str → Bool
  | [] => pat.isEmpty
  | c :: t => pat.isPrefixOf (c :: t) || containsSub pat t

/-- A scan over a string in which no replacement pair's old string occurs
leaves the string unchanged, whatever the fuel. -/
lemma goReplaceAux_of_not_contains (pairs : List (Str × Str)) (s : Str) :
    ∀ fuel : Nat, (∀ p ∈ pairs, containsSub p.1 s = false) →
      goReplaceAux pairs fuel s = s := by
  induction s with
  | nil => intro fuel _; cases fuel <;> rfl
  | cons c t ih =>
    intro fuel h
    have hsplit : ∀ p ∈ pairs,
        p.1.isPrefixOf (c :: t) = false ∧ containsSub p.1 t = false := by
      intro p hp
      have hcp := h p hp
      simpa [containsSub] using hcp
    cases fuel with
    | zero => rfl
    | succ f =>
      have hfind : pairs.find?
          (fun p => !p.1.isEmpty && p.1.isPrefixOf (c :: t)) = none := by
        rw [List.find?_eq_none]
        intro p hp
        simp [(hsplit p hp).1]
      simp only [goReplaceAux, hfind]
      exact congrArg (c :: ·) (ih f (fun p hp => (hsplit p hp).2))

/-- `goReplace` on a string containing none of the old strings is the
identity. -/
lemma goReplace_of_not_contains (pairs : List (Str × Str)) (s : Str)
    (h : ∀ p ∈ pairs, containsSub p.1 s = false) : goReplace pairs s = s :=
  goReplaceAux_of_not_contains pairs s s.length h

/-- The hook leaves any manifest free of both recognized tokens
byte-for-byte unchanged. -/
lemma substitute_of_no_token (v : Str) (spec : OperatorSpec) (m : Str)
    (h1 : containsSub tokOperandImage m = false)
    (h2 : containsSub tokLogLevel m = false) :
    substitute v spec m = m := by
  unfold substitute replacePlaceholdersHook
  refine goReplace_of_not_contains _ _ ?_
  intro p hp
  simp only [hookPairs, List.mem_cons, List.mem_singleton,
    List.not_mem_nil, or_false] at hp
  rcases hp with rfl | rfl
  · exact h1
  · exact h2

/-! ### Canonical token decomposition of a manifest

Both tokens contain a dollar character exactly at their first position, so
occurrences of the two tokens in any string are pairwise disjoint and the
left-to-right scan finds all of them.  `decompose` mirrors the scan: it
splits an arbitrary manifest - stray dollars and unknown tokens included -
into the recognized-token occurrences and the remaining byte segments. -/

/-- The two placeholder tokens recognized by the hook. -/
inductive PTok where
  | operandImage
  | logLevel
  deriving DecidableEq

/-- The literal text of a placeholder token. -/
def ptokStr : PTok → Str
  | .operandImage => tokOperandImage
  | .logLevel => tokLogLevel

/-- The value the hook substitutes for a placeholder token. -/
def ptokVal (v : Str) (spec : OperatorSpec) : PTok → Str
  | .operandImage => v
  | .logLevel => (toString (LogLevelToVerbosity spec.logLevel)).toList

/-- A manifest decomposed into segments each followed by a token, with a
trailing tail; `f` renders each token. -/
def assemble (f : PTok → Str) (ps : List (Str × PTok)) (tail : Str) : Str :=
  ps.foldr (fun q acc => q.1 ++ f q.2 ++ acc) tail

/-- Push one character onto the front of a decomposition: onto the first
segment when there is one, else onto the tail. -/
def consHead (c : Char) : List (Str × PTok) × Str → List (Str × PTok) × Str
  | ([], tail) => ([], c :: tail)
  | ((seg, t) :: ps, tail) => ((c :: seg, t) :: ps, tail)

/-- The canonical decomposition scan, mirroring the replacement scan
position by position: at each position the operand-image token is tried
first, then the log-level token, and otherwise the character joins the
current segment. -/
def decomposeAux : Nat → Str → List (Str × PTok) × Str
  | _, [] => ([], [])
  | 0, s => ([], s)
  | fuel + 1, c :: rest =>
    if tokOperandImage.isPrefixOf (c :: rest) then
      (([], PTok.operandImage)
          :: (decomposeAux fuel (rest.drop (tokOperandImage.length - 1))).1,
        (decomposeAux fuel (rest.drop (tokOperandImage.length - 1))).2)
    else if tokLogLevel.isPrefixOf (c :: rest) then
      (([], PTok.logLevel)
          :: (decomposeAux fuel (rest.drop (tokLogLevel.length - 1))).1,
        (decomposeAux fuel (rest.drop (tokLogLevel.length - 1))).2)
    else
      consHead c (decomposeAux fuel rest)

/-- The canonical decomposition of a manifest into recognized-token
occurrences and the remaining byte segments. -/
def decompose (s : Str) : List (Str × PTok) × Str :=
  decomposeAux s.length s

lemma assemble_cons (f : PTok → Str) (q : Str × PTok)
    (ps : List (Str × PTok)) (tail : Str) :
    assemble f (q :: ps) tail = q.1 ++ f q.2 ++ assemble f ps tail := rfl

lemma assemble_consHead (f : PTok → Str) (c : Char)
    (d : List (Str × PTok) × Str) :
    assemble f (consHead c d).1 (consHead c d).2 = c :: assemble f d.1 d.2 := by
  obtain ⟨ps, tail⟩ := d
  cases ps with
  | nil => rfl
  | cons q ps => obtain ⟨seg, t⟩ := q; rfl

/-- Reassembling the canonical decomposition with the literal token texts
restores the manifest. -/
lemma assemble_decomposeAux (fuel : Nat) :
    ∀ s : Str,
      assemble ptokStr (decomposeAux fuel s).1 (decomposeAux fuel s).2 = s := by
  induction fuel with
  | zero => intro s; cases s <;> rfl
  | succ fuel ih =>
    intro s
    cases s with
    | nil => rfl
    | cons c rest =>
      by_cases h1 : tokOperandImage.isPrefixOf (c :: rest) = true
      · obtain ⟨u, hu⟩ := List.isPrefixOf_iff_prefix.mp h1
        have hdrop : rest.drop (tokOperandImage.length - 1) = u := by
          have hdl : (tokOperandImage ++ u).drop tokOperandImage.length = u :=
            List.drop_left _ _
          rw [hu] at hdl
          exact hdl
        simp only [decomposeAux, if_pos h1, hdrop, assemble_cons, ih u,
          List.nil_append]
        exact hu
      · by_cases h2 : tokLogLevel.isPrefixOf (c :: rest) = true
        · obtain ⟨u, hu⟩ := List.isPrefixOf_iff_prefix.mp h2
          have hdrop : rest.drop (tokLogLevel.length - 1) = u := by
            have hdl : (tokLogLevel ++ u).drop tokLogLevel.length = u :=
              List.drop_left _ _
            rw [hu] at hdl
            exact hdl
          simp only [decomposeAux, if_neg h1, if_pos h2, hdrop, assemble_cons,
            ih u, List.nil_append]
          exact hu
        · simp only [decomposeAux, if_neg h1, if_neg h2, assemble_consHead,
            ih rest]

/-- The replacement scan maps any manifest to its canonical decomposition
with every token occurrence replaced by that token's value and every
remaining byte unchanged. -/
lemma goReplaceAux_eq_assemble_decomposeAux (v : Str) (spec : OperatorSpec)
    (fuel : Nat) :
    ∀ s : Str, goReplaceAux (hookPairs v spec) fuel s
      = assemble (ptokVal v spec)
          (decomposeAux fuel s).1 (decomposeAux fuel s).2 := by
  induction fuel with
  | zero => intro s; cases s <;> rfl
  | succ fuel ih =>
    intro s
    cases s with
    | nil => rfl
    | cons c rest =>
      by_cases h1 : tokOperandImage.isPrefixOf (c :: rest) = true
      · have hfind : (hookPairs v spec).find?
            (fun p => !p.1.isEmpty && p.1.isPrefixOf (c :: rest))
            = some (tokOperandImage, v) := by
          apply List.find?_cons_of_pos
          show (!tokOperandImage.isEmpty
              && tokOperandImage.isPrefixOf (c :: rest)) = true
          rw [h1]
          rfl
        simp only [goReplaceAux, hfind, decomposeAux, if_pos h1,
          assemble_cons, List.nil_append, ih]
        rfl
      · have h1f : tokOperandImage.isPrefixOf (c :: rest) = false := by
          cases hb : tokOperandImage.isPrefixOf (c :: rest)
          · rfl
          · exact absurd hb h1
        by_cases h2 : tokLogLevel.isPrefixOf (c :: rest) = true
        · have hfind : (hookPairs v spec).find?
              (fun p => !p.1.isEmpty && p.1.isPrefixOf (c :: rest))
              = some (tokLogLevel,
                  (toString (LogLevelToVerbosity spec.logLevel)).toList) := by
            rw [hookPairs, List.find?_cons_of_neg]
            · apply List.find?_cons_of_pos
              show (!tokLogLevel.isEmpty
                  && tokLogLevel.isPrefixOf (c :: rest)) = true
              rw [h2]
              rfl
            · show ¬ ((!tokOperandImage.isEmpty
                  && tokOperandImage.isPrefixOf (c :: rest)) = true)
              rw [h1f]
              simp
          simp only [goReplaceAux, hfind, decomposeAux, if_neg h1, if_pos h2,
            assemble_cons, List.nil_append, ih]
          rfl
        · have h2f : tokLogLevel.isPrefixOf (c :: rest) = false := by
            cases hb : tokLogLevel.isPrefixOf (c :: rest)
            · rfl
            · exact absurd hb h2
          have hfind : (hookPairs v spec).find?
              (fun p => !p.1.isEmpty && p.1.isPrefixOf (c :: rest))
              = none := by
            rw [List.find?_eq_none]
            intro p hp
            simp only [hookPairs, List.mem_cons, List.mem_singleton,
              List.not_mem_nil, or_false] at hp
            rcases hp with rfl | rfl <;> simp [h1f, h2f]
          simp only [goReplaceAux, hfind, decomposeAux, if_neg h1, if_neg h2,
            assemble_consHead, ih]

/-- Every segment of the canonical decomposition, and its tail, contains
no occurrence of either token: the decomposition captures every
occurrence. -/
lemma decomposeAux_token_free (fuel : Nat) :
    ∀ s : Str, s.length ≤ fuel →
      (∀ q ∈ (decomposeAux fuel s).1,
        containsSub tokOperandImage q.1 = false
          ∧ containsSub tokLogLevel q.1 = false)
      ∧ containsSub tokOperandImage (decomposeAux fuel s).2 = false
      ∧ containsSub tokLogLevel (decomposeAux fuel s).2 = false := by
  induction fuel with
  | zero =>
    intro s hs
    have hnil : s = [] := List.length_eq_zero.mp (Nat.le_zero.mp hs)
    subst hnil
    exact ⟨fun q hq => absurd hq (List.not_mem_nil q), rfl, rfl⟩
  | succ fuel ih =>
    intro s hs
    cases s with
    | nil => exact ⟨fun q hq => absurd hq (List.not_mem_nil q), rfl, rfl⟩
    | cons c rest =>
      have hrest : rest.length ≤ fuel := by
        simp only [List.length_cons] at hs
        omega
      by_cases h1 : tokOperandImage.isPrefixOf (c :: rest) = true
      · have hdl : (rest.drop (tokOperandImage.length - 1)).length ≤ fuel := by
          rw [List.length_drop]
          omega
        obtain ⟨hsegs, ht1, ht2⟩ := ih (rest.drop (tokOperandImage.length - 1)) hdl
        simp only [decomposeAux, if_pos h1]
        refine ⟨?_, ht1, ht2⟩
        intro q hq
        rcases List.mem_cons.mp hq with rfl | hq'
        · exact ⟨rfl, rfl⟩
        · exact hsegs q hq'
      · by_cases h2 : tokLogLevel.isPrefixOf (c :: rest) = true
        · have hdl : (rest.drop (tokLogLevel.length - 1)).length ≤ fuel := by
            rw [List.length_drop]
            omega
          obtain ⟨hsegs, ht1, ht2⟩ := ih (rest.drop (tokLogLevel.length - 1)) hdl
          simp only [decomposeAux, if_neg h1, if_pos h2]
          refine ⟨?_, ht1, ht2⟩
          intro q hq
          rcases List.mem_cons.mp hq with rfl | hq'
          · exact ⟨rfl, rfl⟩
          · exact hsegs q hq'
        · have h1f : tokOperandImage.isPrefixOf (c :: rest) = false := by
            cases hb : tokOperandImage.isPrefixOf (c :: rest)
            · rfl
            · exact absurd hb h1
          have h2f : tokLogLevel.isPrefixOf (c :: rest) = false := by
            cases hb : tokLogLevel.isPrefixOf (c :: rest)
            · rfl
            · exact absurd hb h2
          obtain ⟨hsegs, ht1, ht2⟩ := ih rest hrest
          have hre := assemble_decomposeAux fuel rest
          simp only [decomposeAux, if_neg h1, if_neg h2]
          rcases hd : decomposeAux fuel rest with ⟨ps, tail⟩
          rw [hd] at hsegs ht1 ht2 hre
          cases ps with
          | nil =>
            have htr : tail = rest := hre
            subst htr
            simp only [consHead]
            refine ⟨fun q hq => absurd hq (List.not_mem_nil q), ?_, ?_⟩
            · simp only [containsSub, Bool.or_eq_false_iff]
              exact ⟨h1f, ht1⟩
            · simp only [containsSub, Bool.or_eq_false_iff]
              exact ⟨h2f, ht2⟩
          | cons q ps =>
            obtain ⟨seg, t⟩ := q
            rw [assemble_cons] at hre
            have hpre : ∀ tok : Str, tok.isPrefixOf (c :: seg) = true →
                tok.isPrefixOf (c :: rest) = true := by
              intro tok htk
              rw [List.isPrefixOf_iff_prefix] at htk ⊢
              refine htk.trans ?_
              refine ⟨ptokStr t ++ assemble ptokStr ps tail, ?_⟩
              rw [← hre]
              simp [List.append_assoc]
            have hcseg1 : tokOperandImage.isPrefixOf (c :: seg) = false := by
              cases hb : tokOperandImage.isPrefixOf (c :: seg)
              · rfl
              · have hc := hpre _ hb
                rw [h1f] at hc
                exact absurd hc (by decide)
            have hcseg2 : tokLogLevel.isPrefixOf (c :: seg) = false := by
              cases hb : tokLogLevel.isPrefixOf (c :: seg)
              · rfl
              · have hc := hpre _ hb
                rw [h2f] at hc
                exact absurd hc (by decide)
            simp only [consHead]
            refine ⟨?_, ht1, ht2⟩
            intro q' hq'
            rcases List.mem_cons.mp hq' with rfl | hq''
            · refine ⟨?_, ?_⟩
              · simp only [containsSub, Bool.or_eq_false_iff]
                exact ⟨hcseg1, (hsegs (seg, t) (List.mem_cons_self _ _)).1⟩
              · simp only [containsSub, Bool.or_eq_false_iff]
                exact ⟨hcseg2, (hsegs (seg, t) (List.mem_cons_self _ _)).2⟩
            · exact hsegs q' (List.mem_cons_of_mem _ hq'')

/-- Any manifest reassembles from its canonical decomposition, and the
hook maps it to the same decomposition with tokens replaced by values. -/
lemma substitute_eq_assemble_decompose (v : Str) (spec : OperatorSpec)
    (m : Str) :
    m = assemble ptokStr (decompose m).1 (decompose m).2
    ∧ substitute v spec m
        = assemble (ptokVal v spec) (decompose m).1 (decompose m).2 :=
  ⟨(assemble_decomposeAux m.length m).symm,
   goReplaceAux_eq_assemble_decomposeAux v spec m.length m⟩

example :
    substitute "img:v2".toList sampleSpec
      "image: ${OPERAND_IMAGE} v=${LOG_LEVEL}".toList
    = "image: img:v2 v=2".toList := by decide

example :
    substitute "a".toList sampleSpec
      "${OPERAND_IMAGE}${OPERAND_IMAGE}${UNKNOWN}".toList
    = "aa${UNKNOWN}".toList := by decide

example :
    substitute "img".toList sampleSpec
      "a $ ${FOO} ${OPERAND_IMAGE} ${LOG_LEVEL}$".toList
    = "a $ ${FOO} img 2$".toList := by decide

/-! ### Conditional resource-set predicates (starter.go lines 93-116)

One invocation of the library-go precheck
`NewIsSingleNodePlatformFn(...)()` either returns an error or a pair
(isSNO, precheckSucceeded). -/

/-- The outcome of one call to the IsSingleNodePlatform precheck. -/
inductive PrecheckOutcome where
  | err (e : GoError)
  | ok (isSNO : Bool) (precheckSucceeded : Bool)
  deriving DecidableEq

/-- The multi-node predicate (starter.go lines 93-104) guards
csi_controller_deployment_pdb.yaml and webhook_deployment_pdb.yaml: on a
precheck error it returns false, on a precheck that did not succeed it
returns false, otherwise it returns the negation of the single-node flag. -/
def multiNodePredicate : PrecheckOutcome → Bool
  | .err _ => false
  | .ok isSNO precheckSucceeded =>
    if !precheckSucceeded then false else !isSNO

/-- The single-node predicate (starter.go lines 105-116): on a precheck
error it returns false, on a precheck that did not succeed it returns
false, otherwise it returns the single-node flag. -/
def singleNodePredicate : PrecheckOutcome → Bool
  | .err _ => false
  | .ok isSNO precheckSucceeded =>
    if !precheckSucceeded then false else isSNO

/-- An indeterminate precheck outcome: an error, or a precheck that
reports it did not succeed. -/
def precheckIndeterminate : PrecheckOutcome → Bool
  | .err _ => true
  | .ok _ precheckSucceeded => !precheckSucceeded

/-- One conditional-resources pass as the source performs it: each of the
two predicate closures makes its own, independent call to
`NewIsSingleNodePlatformFn(...)()` (starter.go line 94 and line 106), so
the pass is a function of two precheck reads, not of one shared snapshot. -/
def conditionalResourcesEnabled (firstRead secondRead : PrecheckOutcome) :
    Bool × Bool :=
  (multiNodePredicate firstRead, singleNodePredicate secondRead)

/-! ### RunOperator (starter.go lines 48-242)

The fallible startup steps, in source order: four client constructions and
two asset reads.  The run phase starts the three informer factories,
launches the eight controllers, blocks on the cancellation signal and then
returns the "stopped" error.  A Go `error` result is `Option GoError`
with `none` for nil. -/

/-- The outcomes of the fallible startup steps of RunOperator. -/
structure StartupEnv where
  kubeClient : Except GoError Unit
  configClient : Except GoError Unit
  apiExtClient : Except GoError Unit
  operatorClient : Except GoError Unit
  controllerDeploymentManifest : Except GoError Str
  webhookDeploymentManifest : Except GoError Str

/-- What a run of RunOperator did: whether the informer factories were
started, how many controller goroutines were launched, and the returned
Go error value. -/
structure RunTrace where
  informersStarted : Bool
  controllersLaunched : Nat
  ret : Option GoError
  deriving DecidableEq

/-- Model of RunOperator: each fallible startup step returns its error
immediately; once all succeed, the three informer factories are started,
the eight controllers are launched, the function blocks until the
cancellation signal fires and then returns the non-nil "stopped" error
(starter.go lines 239-241). -/
def RunOperator (env : StartupEnv) : RunTrace :=
  match env.kubeClient with
  | .error e => ⟨false, 0, some e⟩
  | .ok _ =>
    match env.configClient with
    | .error e => ⟨false, 0, some e⟩
    | .ok _ =>
      match env.apiExtClient with
      | .error e => ⟨false, 0, some e⟩
      | .ok _ =>
        match env.operatorClient with
        | .error e => ⟨false, 0, some e⟩
        | .ok _ =>
          match env.controllerDeploymentManifest with
          | .error e => ⟨false, 0, some e⟩
          | .ok _ =>
            match env.webhookDeploymentManifest with
            | .error e => ⟨false, 0, some e⟩
            | .ok _ => ⟨true, 8, some "stopped"⟩

/-- True when every fallible startup step succeeded. -/
def startupOk (env : StartupEnv) : Bool :=
  env.kubeClient.toBool && env.configClient.toBool
    && env.apiExtClient.toBool && env.operatorClient.toBool
    && env.controllerDeploymentManifest.toBool
    && env.webhookDeploymentManifest.toBool

/-- Some fallible startup step failed with error `e`. -/
def stepFailedWith (env : StartupEnv) (e : GoError) : Prop :=
  env.kubeClient = .error e ∨ env.configClient = .error e
    ∨ env.apiExtClient = .error e ∨ env.operatorClient = .error e
    ∨ env.controllerDeploymentManifest = .error e
    ∨ env.webhookDeploymentManifest = .error e

/-- A startup environment in which every step succeeds. -/
def okEnv : StartupEnv :=
  ⟨.ok (), .ok (), .ok (), .ok (),
   .ok "controller manifest".toList, .ok "webhook manifest".toList⟩

/-- A startup environment whose API-extensions client construction fails. -/
def failEnv : StartupEnv :=
  ⟨.ok (), .ok (), .error "apiext construction failed", .ok (),
   .ok "controller manifest".toList, .ok "webhook manifest".toList⟩

/-! ### Version controller (starter.go lines 169-178) -/

/-- Modelled from the spec: the repository's `NewVersionController` is
referenced at starter.go lines 169-178 but its defining file is not part
of the provided source.  Per the spec, one aggregation pass advances a
component's reported version to the target version only once every
sub-component (operator pod image, operand deployment, webhook deployment)
independently confirms running the target version, and once the reported
version equals the target it is never rewritten. -/
structure SubComponentReport where
  operatorPodAtTarget : Bool
  operandDeploymentAtTarget : Bool
  webhookDeploymentAtTarget : Bool
  deriving DecidableEq

/-- Modelled from the spec: one aggregation pass of the version
controller, mapping the currently reported version and the fresh
sub-component report to the newly reported version. -/
def versionAggregationPass (targetVersion current : String)
    (report : SubComponentReport) : String :=
  if current = targetVersion then current
  else if report.operatorPodAtTarget && report.operandDeploymentAtTarget
      && report.webhookDeploymentAtTarget then targetVersion
  else current

/-! ### Log-level rank -/

/-- The order of the operator log-level enum values: Normal, Debug, Trace,
TraceAll, as declared by the openshift operator API. -/
def logLevelRank : String → Nat
  | "Normal" => 0
  | "Debug" => 1
  | "Trace" => 2
  | "TraceAll" => 3
  | _ => 0

/-- The valid operator log-level enum values. -/
def validLogLevels : List String := ["Normal", "Debug", "Trace", "TraceAll"]

/-- A second spec differing from `sampleSpec` in every field except the
log level. -/
def alteredSpec : OperatorSpec :=
  ⟨"Unmanaged", "Normal", "Debug", "overrides", "observed"⟩

/-! ## Claim theorems -/

/-- C1: for any single precheck outcome, the multi-node predicate and the
single-node predicate are never both true, and on an indeterminate
outcome (error, or precheck not succeeded) both predicates return false,
so neither conditional resource set is enabled. -/
theorem conditional_predicates_exclusive_and_safe (r : PrecheckOutcome) :
    ¬(multiNodePredicate r = true ∧ singleNodePredicate r = true)
    ∧ (precheckIndeterminate r = true →
        multiNodePredicate r = false ∧ singleNodePredicate r = false) := by
  rcases r with e | ⟨sno, ps⟩
  · simp [multiNodePredicate, singleNodePredicate, precheckIndeterminate]
  · cases sno <;> cases ps <;> decide

theorem conditional_predicates_exclusive_and_safe_witness :
    ¬(multiNodePredicate (.ok true false) = true
        ∧ singleNodePredicate (.ok true false) = true)
    ∧ (multiNodePredicate (.ok true false) = false
        ∧ singleNodePredicate (.ok true false) = false) :=
  ⟨(conditional_predicates_exclusive_and_safe (.ok true false)).1,
   (conditional_predicates_exclusive_and_safe (.ok true false)).2 (by decide)⟩

/-- C2: the claim that both predicates are evaluated against one and the
same snapshot fails on the code: each predicate closure performs its own
call to the precheck, and with two reads that differ between the calls
both mutually exclusive resource sets are enabled in one pass — the
multi-node read reports a multi-node cluster while the single-node read
reports a single-node cluster. -/
theorem two_precheck_reads_can_enable_both_sets :
    conditionalResourcesEnabled (.ok false true) (.ok true true) = (true, true)
    ∧ (PrecheckOutcome.ok false true) ≠ (PrecheckOutcome.ok true true) := by
  decide

/-- C3 counterexample: with an image name that itself contains the
log-level token, applying the hook twice does not equal applying it once,
so substitution is not idempotent for every image name. -/
theorem substitute_not_idempotent_cx :
    substitute "x${LOG_LEVEL}".toList sampleSpec
        (substitute "x${LOG_LEVEL}".toList sampleSpec "${OPERAND_IMAGE}".toList)
      ≠ substitute "x${LOG_LEVEL}".toList sampleSpec "${OPERAND_IMAGE}".toList := by
  decide

/-- C3 amended: substitution is idempotent whenever the first
application's output contains no further occurrence of either recognized
token (in particular whenever the substituted image name does not itself
reintroduce a recognized token); and in every manifest all bytes other
than the recognized-token occurrences — in particular every unknown token
such as a distinct placeholder, which contains no occurrence of the two
recognized tokens — are left byte-for-byte unchanged in the output: the
manifest splits into its recognized-token occurrences and remaining
segments, and the output keeps each segment verbatim. -/
theorem substitute_idempotent_unless_token_reintroduced
    (v : Str) (spec : OperatorSpec) (m : Str)
    (h1 : containsSub tokOperandImage (substitute v spec m) = false)
    (h2 : containsSub tokLogLevel (substitute v spec m) = false) :
    substitute v spec (substitute v spec m) = substitute v spec m
    ∧ ∀ m' : Str,
        m' = assemble ptokStr (decompose m').1 (decompose m').2
        ∧ substitute v spec m'
            = assemble (ptokVal v spec) (decompose m').1 (decompose m').2 := by
  refine ⟨substitute_of_no_token v spec _ h1 h2, ?_⟩
  intro m'
  exact substitute_eq_assemble_decompose v spec m'

/-- A manifest carrying both recognized tokens. -/
def manifestWithTokens : Str :=
  "a ${OPERAND_IMAGE} b ${LOG_LEVEL}".toList

/-- A manifest carrying a stray dollar and an unknown token alongside a
recognized one. -/
def manifestWithUnknown : Str :=
  "x $ ${FOO} ${OPERAND_IMAGE} y".toList

theorem substitute_idempotent_unless_token_reintroduced_witness :
    substitute "img".toList sampleSpec
        (substitute "img".toList sampleSpec manifestWithTokens)
      = substitute "img".toList sampleSpec manifestWithTokens
    ∧ (manifestWithUnknown
        = assemble ptokStr
            (decompose manifestWithUnknown).1 (decompose manifestWithUnknown).2
        ∧ substitute "img".toList sampleSpec manifestWithUnknown
          = assemble (ptokVal "img".toList sampleSpec)
              (decompose manifestWithUnknown).1 (decompose manifestWithUnknown).2) :=
  ⟨(substitute_idempotent_unless_token_reintroduced "img".toList sampleSpec
      manifestWithTokens (by decide) (by decide)).1,
   (substitute_idempotent_unless_token_reintroduced "img".toList sampleSpec
      manifestWithTokens (by decide) (by decide)).2 manifestWithUnknown⟩

/-- C4: for every manifest byte sequence — stray dollars and unknown
tokens included — the hook's output is the manifest's canonical
decomposition into recognized-token occurrences and remaining byte
segments, with every occurrence of the operand-image token replaced by
the image name, every occurrence of the log-level token replaced by the
decimal rendering of the verbosity (all occurrences, not just the first),
and every remaining byte unchanged; the decomposition reassembles to the
manifest and its segments contain no further occurrence of either token,
so it carves out exactly the occurrences. -/
theorem substitute_replaces_every_occurrence (v : Str) (spec : OperatorSpec)
    (m : Str) :
    m = assemble ptokStr (decompose m).1 (decompose m).2
    ∧ (∀ q ∈ (decompose m).1,
        containsSub tokOperandImage q.1 = false
          ∧ containsSub tokLogLevel q.1 = false)
    ∧ containsSub tokOperandImage (decompose m).2 = false
    ∧ containsSub tokLogLevel (decompose m).2 = false
    ∧ substitute v spec m
        = assemble (ptokVal v spec) (decompose m).1 (decompose m).2 := by
  obtain ⟨hsegs, ht1, ht2⟩ := decomposeAux_token_free m.length m le_rfl
  obtain ⟨hasm, hsub⟩ := substitute_eq_assemble_decompose v spec m
  exact ⟨hasm, hsegs, ht1, ht2, hsub⟩

/-- A manifest with a stray dollar, an unknown token and two occurrences
of one recognized token around another. -/
def manifestFull : Str :=
  "a $x ${FOO} ${OPERAND_IMAGE} mid ${LOG_LEVEL} ${OPERAND_IMAGE}tail".toList

theorem substitute_replaces_every_occurrence_witness :
    substitute "img".toList sampleSpec manifestFull
      = assemble (ptokVal "img".toList sampleSpec)
          (decompose manifestFull).1 (decompose manifestFull).2
    ∧ manifestFull
      = assemble ptokStr (decompose manifestFull).1 (decompose manifestFull).2
    ∧ (containsSub tokOperandImage "a $x ${FOO} ".toList = false
        ∧ containsSub tokLogLevel "a $x ${FOO} ".toList = false) :=
  ⟨(substitute_replaces_every_occurrence "img".toList sampleSpec
      manifestFull).2.2.2.2,
   (substitute_replaces_every_occurrence "img".toList sampleSpec
      manifestFull).1,
   (substitute_replaces_every_occurrence "img".toList sampleSpec
      manifestFull).2.1 ("a $x ${FOO} ".toList, PTok.operandImage) (by decide)⟩

/-- C5: RunOperator never returns a nil error, and once every startup
step has succeeded it blocks until the cancellation signal fires and then
returns the non-nil error with message "stopped". -/
theorem RunOperator_returns_stopped (env : StartupEnv) :
    (RunOperator env).ret ≠ none
    ∧ (startupOk env = true → (RunOperator env).ret = some "stopped") := by
  obtain ⟨f1, f2, f3, f4, f5, f6⟩ := env
  cases f1 <;> cases f2 <;> cases f3 <;> cases f4 <;> cases f5 <;> cases f6 <;>
    simp [RunOperator, startupOk, Except.toBool]

theorem RunOperator_returns_stopped_witness :
    (RunOperator okEnv).ret ≠ none
    ∧ (RunOperator okEnv).ret = some "stopped" :=
  ⟨(RunOperator_returns_stopped okEnv).1,
   (RunOperator_returns_stopped okEnv).2 (by decide)⟩

/-- C6: one version-aggregation pass never rewrites a reported version
that already equals the target, advances the reported version to the
target only when every sub-component independently confirms the target,
and otherwise leaves the reported version unchanged. -/
theorem version_never_regresses_and_advances_only_when_confirmed
    (targetVersion current : String) (report : SubComponentReport) :
    (current = targetVersion →
      versionAggregationPass targetVersion current report = targetVersion)
    ∧ (versionAggregationPass targetVersion current report = targetVersion →
        current = targetVersion
        ∨ (report.operatorPodAtTarget = true
            ∧ report.operandDeploymentAtTarget = true
            ∧ report.webhookDeploymentAtTarget = true))
    ∧ (versionAggregationPass targetVersion current report ≠ targetVersion →
        versionAggregationPass targetVersion current report = current) := by
  obtain ⟨a, b, c⟩ := report
  unfold versionAggregationPass
  by_cases h1 : current = targetVersion <;> cases a <;> cases b <;> cases c <;>
    simp [h1]

theorem version_never_regresses_and_advances_only_when_confirmed_witness :
    versionAggregationPass "4.12.0" "4.12.0" ⟨false, false, false⟩ = "4.12.0"
    ∧ ("4.12.0" = "4.12.0"
        ∨ ((⟨false, false, false⟩ : SubComponentReport).operatorPodAtTarget = true
            ∧ (⟨false, false, false⟩ : SubComponentReport).operandDeploymentAtTarget = true
            ∧ (⟨false, false, false⟩ : SubComponentReport).webhookDeploymentAtTarget = true))
    ∧ versionAggregationPass "4.13.0" "4.12.0" ⟨true, true, false⟩ = "4.12.0" :=
  ⟨(version_never_regresses_and_advances_only_when_confirmed
      "4.12.0" "4.12.0" ⟨false, false, false⟩).1 rfl,
   (version_never_regresses_and_advances_only_when_confirmed
      "4.12.0" "4.12.0" ⟨false, false, false⟩).2.1 (by decide),
   (version_never_regresses_and_advances_only_when_confirmed
      "4.13.0" "4.12.0" ⟨true, true, false⟩).2.2 (by decide)⟩

/-- C7: when some fallible startup step fails, RunOperator returns that
step's error with no informer started and no controller goroutine
launched. -/
theorem startup_failure_prevents_run_loop (env : StartupEnv)
    (h : startupOk env = false) :
    ∃ e, stepFailedWith env e
      ∧ RunOperator env = ⟨false, 0, some e⟩ := by
  obtain ⟨f1, f2, f3, f4, f5, f6⟩ := env
  rcases f1 with e | u1
  · exact ⟨e, Or.inl rfl, rfl⟩
  rcases f2 with e | u2
  · exact ⟨e, Or.inr (Or.inl rfl), rfl⟩
  rcases f3 with e | u3
  · exact ⟨e, Or.inr (Or.inr (Or.inl rfl)), rfl⟩
  rcases f4 with e | u4
  · exact ⟨e, Or.inr (Or.inr (Or.inr (Or.inl rfl))), rfl⟩
  rcases f5 with e | m5
  · exact ⟨e, Or.inr (Or.inr (Or.inr (Or.inr (Or.inl rfl)))), rfl⟩
  rcases f6 with e | m6
  · exact ⟨e, Or.inr (Or.inr (Or.inr (Or.inr (Or.inr rfl)))), rfl⟩
  · simp [startupOk, Except.toBool] at h

theorem startup_failure_prevents_run_loop_witness :
    ∃ e, stepFailedWith failEnv e
      ∧ RunOperator failEnv = ⟨false, 0, some e⟩ :=
  startup_failure_prevents_run_loop failEnv (by rfl)

/-- C8: on the valid log-level enum values the verbosity mapping is total
(defined on each of them), deterministic (it is a function), monotone in
the enum order, and confined to the fixed range 2..8. -/
theorem logLevelToVerbosity_total_monotone_bounded (a b : String)
    (ha : a ∈ validLogLevels) (hb : b ∈ validLogLevels) :
    (logLevelRank a ≤ logLevelRank b →
      LogLevelToVerbosity a ≤ LogLevelToVerbosity b)
    ∧ 2 ≤ LogLevelToVerbosity a ∧ LogLevelToVerbosity a ≤ 8 := by
  simp only [validLogLevels, List.mem_cons, List.mem_singleton,
    List.not_mem_nil, or_false] at ha hb
  rcases ha with rfl | rfl | rfl | rfl <;> rcases hb with rfl | rfl | rfl | rfl <;>
    decide

theorem logLevelToVerbosity_total_monotone_bounded_witness :
    LogLevelToVerbosity "Normal" ≤ LogLevelToVerbosity "TraceAll"
    ∧ 2 ≤ LogLevelToVerbosity "Normal" ∧ LogLevelToVerbosity "Normal" ≤ 8 :=
  ⟨(logLevelToVerbosity_total_monotone_bounded "Normal" "TraceAll"
      (by decide) (by decide)).1 (by decide),
   (logLevelToVerbosity_total_monotone_bounded "Normal" "TraceAll"
      (by decide) (by decide)).2⟩

/-- C9: the hook is a pure function of the image name, the manifest and
the spec's log level alone: two specs agreeing on the log level yield
byte-identical hook results, whatever their other fields. -/
theorem hook_output_depends_only_on_logLevel (v : Str)
    (s1 s2 : OperatorSpec) (m : Str) (h : s1.logLevel = s2.logLevel) :
    replacePlaceholdersHook v s1 m = replacePlaceholdersHook v s2 m := by
  unfold replacePlaceholdersHook hookPairs
  rw [h]

theorem hook_output_depends_only_on_logLevel_witness :
    replacePlaceholdersHook "img".toList sampleSpec "m ${LOG_LEVEL}".toList
      = replacePlaceholdersHook "img".toList alteredSpec "m ${LOG_LEVEL}".toList :=
  hook_output_depends_only_on_logLevel "img".toList sampleSpec alteredSpec
    "m ${LOG_LEVEL}".toList (by decide)

/-- C10: the hook never fails: for every image name (the empty string
included), spec and manifest it returns a nil error; its error branch is
unreachable. -/
theorem hook_never_fails (v : Str) (spec : OperatorSpec) (m : Str) :
    (replacePlaceholdersHook v spec m).2 = none := rfl

end CsiSnapshotOperator
